import Mathlib

/-!
Shallow embedding of `src/paasta_tools/paasta_cli/cmds/status.py`: the
deployment-status reconciliation and reporting logic of the paasta client.
Python strings are modelled as `String` (a structure over `List Char`), Python
dicts as insertion-ordered association lists, generators as lists, and
fallible tuple unpacking (`a, b = s.split(sep)`) as `Option`-valued splitting.
-/

/-- Python-style split of a character list on a separator character, as in
`s.split(sep)` for a one-character separator: the segments between
occurrences of the separator, empty segments preserved. -/
def splitOnChar (c : Char) : List Char → List (List Char)
  | [] => [[]]
  | x :: xs =>
    if x = c then [] :: splitOnChar c xs
    else (x :: (splitOnChar c xs).headD []) :: (splitOnChar c xs).tail

/-- Embedding of the tuple unpacking `a, b = s.split(sep)` used throughout
`status.py`: it succeeds exactly when the split yields two parts, i.e. when
the separator occurs exactly once, and raises `ValueError` otherwise. -/
def splitTwo (c : Char) (s : String) : Option (String × String) :=
  match splitOnChar c s.data with
  | [a, b] => some (⟨a⟩, ⟨b⟩)
  | _ => none

/-- Cluster part of a well-formed `cluster.instance` namespace (`""` when
malformed); used to state properties of the functions below. -/
def clusterOf (s : String) : String :=
  match splitTwo '.' s with
  | some p => p.1
  | none => ""

/-- Instance part of a well-formed `cluster.instance` namespace (`""` when
malformed); used to state properties of the functions below. -/
def instanceOf (s : String) : String :=
  match splitTwo '.' s with
  | some p => p.2
  | none => ""

/-- First-match lookup in an association list; embeds Python dict lookup
(`m[k]`, `k in m`) for the insertion-ordered dicts modelled here. -/
def dictLookup : List (String × String) → String → Option String
  | [], _ => none
  | e :: rest, k => if e.1 = k then some e.2 else dictLookup rest k

/-- Embedding of the Python membership test `k in m`. -/
def dictContains (m : List (String × String)) (k : String) : Bool :=
  (dictLookup m k).isSome

/-- Embedding of Python dict assignment `m[k] = v`: overwrite the existing
entry in place, or append a new one. -/
def dictInsert : List (String × String) → String → String → List (String × String)
  | [], k, v => [(k, v)]
  | e :: rest, k, v => if e.1 = k then (k, v) :: rest else e :: dictInsert rest k v

/-- Embedding of `cluster_dict.setdefault(cluster, []).append(instance)` on an
insertion-ordered dict from cluster names to instance lists. -/
def addStep : List (String × List String) → String → String → List (String × List String)
  | [], c, i => [(c, [i])]
  | e :: rest, c, i => if e.1 = c then (e.1, e.2 ++ [i]) :: rest else e :: addStep rest c i

/-- First-match lookup of a cluster's instance list (`[]` when absent). -/
def groupLookup : List (String × List String) → String → List String
  | [], _ => []
  | e :: rest, c => if e.1 = c then e.2 else groupLookup rest c

/-- Embedding of the first loop of `get_planned_deployments`: iterate the raw
pipeline entries, skip namespaces in the non-deploy step set, split the rest
on `.` (failing on a malformed namespace), and group instances under their
cluster in first-seen order. -/
def build_cluster_dict (nonDeploy : List String) : List String → List (String × List String) → Option (List (String × List String))
  | [], d => some d
  | ns :: rest, d =>
    if ns ∈ nonDeploy then build_cluster_dict nonDeploy rest d
    else
      match splitTwo '.' ns with
      | none => none
      | some ci => build_cluster_dict nonDeploy rest (addStep d ci.1 ci.2)

/-- Embedding of the yield loop of `get_planned_deployments`: emit
`"%s.%s" % (cluster, instance)` for each cluster in dict order and each
instance in list order. -/
def flattenPlanned (d : List (String × List String)) : List String :=
  (d.map (fun e => e.2.map (fun i => e.1 ++ "." ++ i))).flatten

/-- Embedding of `get_planned_deployments` from `status.py`: the flat ordered
sequence of `cluster.instance` deployment targets, or `none` when a deploy
step's namespace does not split into exactly two parts on `.`. -/
def get_planned_deployments (pipeline nonDeploy : List String) : Option (List String) :=
  match build_cluster_dict nonDeploy pipeline [] with
  | none => none
  | some d => some (flattenPlanned d)

/-- The deploy steps of a raw pipeline: the namespaces not in the non-deploy
step set, in order; used to state properties of the planner. -/
def deploySteps (pipeline nonDeploy : List String) : List String :=
  pipeline.filter (fun ns => decide (ns ∉ nonDeploy))

/-- Append an element to an accumulator unless already present; the building
block of first-appearance deduplication. -/
def insertNew (acc : List String) (c : String) : List String :=
  if c ∈ acc then acc else acc ++ [c]

/-- Deduplicate a list keeping the first occurrence of each element, in
first-appearance order; used to state properties of the functions below. -/
def dedupKeepFirst (l : List String) : List String :=
  l.foldl insertNew []

/-- Embedding of the loop of `list_deployed_clusters`: split each namespace on
`.` (failing when malformed, even for namespaces absent from the actual
deployments), and append its cluster when the full `cluster.instance` key is
an actual deployment and the cluster was not already collected. -/
def list_deployed_clusters_aux (actual : List (String × String)) : List String → List String → Option (List String)
  | [], acc => some acc
  | ns :: rest, acc =>
    match splitTwo '.' ns with
    | none => none
    | some ci =>
      if dictContains actual ns then
        if ci.1 ∈ acc then list_deployed_clusters_aux actual rest acc
        else list_deployed_clusters_aux actual rest (acc ++ [ci.1])
      else list_deployed_clusters_aux actual rest acc

/-- Embedding of `list_deployed_clusters` from `status.py`. -/
def list_deployed_clusters (pipeline : List String) (actual : List (String × String)) : Option (List String) :=
  list_deployed_clusters_aux actual pipeline []

/-- Index of the last occurrence of `'-'` in a character list, embedding
Python's `value.rfind('-')` (`none` standing for the sentinel `-1`). -/
def rfindDash : List Char → Option Nat
  | [] => none
  | x :: xs =>
    match rfindDash xs with
    | some i => some (i + 1)
    | none => if x = '-' then some 0 else none

/-- Embedding of `sha = value[value.rfind('-') + 1:]` from
`get_actual_deployments`: the substring after the last `'-'`, or the whole
string when no `'-'` occurs. -/
def shaFromImage (s : String) : String :=
  match rfindDash s.data with
  | some i => ⟨s.data.drop (i + 1)⟩
  | none => s

/-- Embedding of Python's `s.replace(pat, '', 1)` on character lists: remove
the leftmost occurrence of `pat`, scanning left to right. -/
def replaceFirst (pat : List Char) : List Char → List Char
  | [] => []
  | x :: xs => if pat.isPrefixOf (x :: xs) then (x :: xs).drop pat.length else x :: replaceFirst pat xs

/-- Substring occurrence test on character lists, embedding Python's
`pat in s`; used to state properties of `replaceFirst`. -/
def containsSub (pat : List Char) : List Char → Bool
  | [] => pat.isPrefixOf []
  | x :: xs => pat.isPrefixOf (x :: xs) || containsSub pat xs

/-- Embedding of `namespace.replace('paasta-', '', 1)` from
`get_actual_deployments`. -/
def stripPaasta (s : String) : String :=
  ⟨replaceFirst "paasta-".data s.data⟩

/-- Service part of a well-formed `service:namespace` deployment key (`""`
when malformed); used to state properties of `get_actual_deployments`. -/
def serviceOf (key : String) : String :=
  match splitTwo ':' key with
  | some p => p.1
  | none => ""

/-- Namespace part of a well-formed `service:namespace` deployment key (`""`
when malformed); used to state properties of `get_actual_deployments`. -/
def nsOf (key : String) : String :=
  match splitTwo ':' key with
  | some p => p.2
  | none => ""

/-- Embedding of the loop of `get_actual_deployments`: split each raw key on
`:` (failing when malformed), keep entries whose service part equals the
queried service, and store the derived sha under the stripped namespace. -/
def get_actual_deployments_aux (service : String) : List (String × String) → List (String × String) → Option (List (String × String))
  | [], m => some m
  | e :: rest, m =>
    match splitTwo ':' e.1 with
    | none => none
    | some sn =>
      if sn.1 = service then
        get_actual_deployments_aux service rest (dictInsert m (stripPaasta sn.2) (shaFromImage e.2))
      else
        get_actual_deployments_aux service rest m

/-- Embedding of `get_actual_deployments` from `status.py`. The boolean
records whether the undeployed-service warning was written to stderr, which
the source does exactly when the raw deployments record is empty. -/
def get_actual_deployments (record : List (String × String)) (service : String) : Option (List (String × String) × Bool) :=
  match get_actual_deployments_aux service record [] with
  | none => none
  | some m => some (m, record.isEmpty)

/-- Modelled from the spec: the remote status probe
`execute_paasta_serviceinit_on_remote_master` lives in
`paasta_tools/paasta_cli/utils.py`, which is not under `src/`. Per the spec
(§4.3, §7) a probe failure is captured and reported inline for that instance
only, so the collaborator is modelled as a total function from cluster and
instance to the text it reports for that instance (live status or failure
text). -/
def RemoteProbe : Type :=
  String → String → String

/-- Embedding of the Python slice `value[:8]`: the first eight characters. -/
def pyTake8 (s : String) : String :=
  ⟨s.data.take 8⟩

/-- The status line `report_status_for_cluster` prints for one target of its
cluster: instance name, displayed version, and the probe text when deployed
(the source prints `Git sha: None` and no probe text when not deployed). -/
def lineFor (cluster : String) (actual : List (String × String)) (probe : RemoteProbe) (ns : String) : String × String × Option String :=
  match dictLookup actual ns with
  | some v => (instanceOf ns, pyTake8 v, some (probe cluster (instanceOf ns)))
  | none => (instanceOf ns, "None", none)

/-- Embedding of the loop of `report_status_for_cluster`: split each namespace
on `.` (failing when malformed, even for namespaces of other clusters), skip
namespaces whose cluster differs, and emit one status line per remaining
namespace. -/
def report_status_for_cluster_aux (cluster : String) (actual : List (String × String)) (probe : RemoteProbe) : List String → Option (List (String × String × Option String))
  | [] => some []
  | ns :: rest =>
    match splitTwo '.' ns with
    | none => none
    | some ci =>
      if ci.1 ≠ cluster then report_status_for_cluster_aux cluster actual probe rest
      else
        match dictLookup actual ns with
        | some v =>
          match report_status_for_cluster_aux cluster actual probe rest with
          | none => none
          | some ls => some ((ci.2, pyTake8 v, some (probe cluster ci.2)) :: ls)
        | none =>
          match report_status_for_cluster_aux cluster actual probe rest with
          | none => none
          | some ls => some ((ci.2, "None", none) :: ls)

/-- Embedding of `report_status_for_cluster` from `status.py`, as the ordered
sequence of status lines it prints for the given cluster. -/
def report_status_for_cluster (cluster : String) (pipeline : List String) (actual : List (String × String)) (probe : RemoteProbe) : Option (List (String × String × Option String)) :=
  report_status_for_cluster_aux cluster actual probe pipeline

/-- Embedding of the `bogus_clusters` accumulation loop of
`report_bogus_filters`: the filter entries absent from the deployed-cluster
list, in the filter's order. -/
def bogus_clusters (f deployed : List String) : List String :=
  f.foldl (fun acc c => if c ∈ deployed then acc else acc ++ [c]) []

/-- Embedding of `",".join(...)`. -/
def joinComma : List String → String
  | [] => ""
  | [x] => x
  | x :: y :: rest => x ++ "," ++ joinComma (y :: rest)

/-- The warning text `report_bogus_filters` builds for a non-empty bogus
list. -/
def bogusWarning (b : List String) : String :=
  "\nWarning: The following clusters in the filter look bogus, this service\nis not deployed to the following cluster(s):\n" ++ joinComma b

/-- Embedding of `report_bogus_filters` from `status.py`. -/
def report_bogus_filters (cluster_filter : Option (List String)) (deployed : List String) : String :=
  match cluster_filter with
  | none => ""
  | some f =>
    if (bogus_clusters f deployed).length > 0 then bogusWarning (bogus_clusters f deployed)
    else ""

/-- Embedding of the per-cluster loop of `report_status`: report each selected
cluster in order, pairing it with its status lines. -/
def reportClusters (pipeline : List String) (actual : List (String × String)) (probe : RemoteProbe) : List String → Option (List (String × List (String × String × Option String)))
  | [] => some []
  | c :: rest =>
    match report_status_for_cluster c pipeline actual probe with
    | none => none
    | some lines =>
      match reportClusters pipeline actual probe rest with
      | none => none
      | some others => some ((c, lines) :: others)

/-- Embedding of the filter test `cluster_filter is None or cluster in
cluster_filter` applied to the deployed-cluster list. -/
def selectedClusters (cluster_filter : Option (List String)) (dcs : List String) : List String :=
  dcs.filter (fun c =>
    match cluster_filter with
    | none => true
    | some f => decide (c ∈ f))

/-- Embedding of `report_status` from `status.py`: the per-cluster reports for
the deployed clusters passing the filter, plus the bogus-filter warning
string printed at the end. -/
def report_status (pipeline : List String) (actual : List (String × String)) (cluster_filter : Option (List String)) (probe : RemoteProbe) : Option (List (String × List (String × String × Option String)) × String) :=
  match list_deployed_clusters pipeline actual with
  | none => none
  | some dcs =>
    match reportClusters pipeline actual probe (selectedClusters cluster_filter dcs) with
    | none => none
    | some rs => some (rs, report_bogus_filters cluster_filter dcs)

/-- Top-level outcome of `paasta_status`: either the single
`missing_deployments_message` terminal output, or a full status report. -/
inductive StatusOutcome where
  | missingDeployments : StatusOutcome
  | statusReport : List (String × List (String × String × Option String)) → String → StatusOutcome

/-- Embedding of `paasta_status` from `status.py`: read the actual
deployments; when the resulting mapping is non-empty, build the planned
pipeline and report; when it is empty, produce only the missing-deployments
message, without touching the pipeline. -/
def paasta_status (record : List (String × String)) (rawPipeline nonDeploy : List String) (cluster_filter : Option (List String)) (service : String) (probe : RemoteProbe) : Option StatusOutcome :=
  match get_actual_deployments record service with
  | none => none
  | some am =>
    if am.1.isEmpty then some StatusOutcome.missingDeployments
    else
      match get_planned_deployments rawPipeline nonDeploy with
      | none => none
      | some deploy_pipeline =>
        match report_status deploy_pipeline am.1 cluster_filter probe with
        | none => none
        | some rb => some (StatusOutcome.statusReport rb.1 rb.2)


theorem splitOnChar_ne_nil (c : Char) (l : List Char) : splitOnChar c l ≠ [] := by
  cases l with
  | nil => simp [splitOnChar]
  | cons x xs => by_cases hx : x = c <;> simp [splitOnChar, hx]

theorem splitOnChar_length (c : Char) (l : List Char) :
    (splitOnChar c l).length = l.count c + 1 := by
  induction l with
  | nil => simp [splitOnChar]
  | cons x xs ih =>
    have hpos : 1 ≤ (splitOnChar c xs).length :=
      List.length_pos.mpr (splitOnChar_ne_nil c xs)
    by_cases hx : x = c
    · simp [splitOnChar, hx, List.count_cons]
      omega
    · simp only [splitOnChar, if_neg hx, List.length_cons, List.count_cons, beq_iff_eq,
        List.length_tail]
      omega

theorem splitTwo_eq_none_iff (c : Char) (s : String) :
    splitTwo c s = none ↔ s.data.count c ≠ 1 := by
  have hlen := splitOnChar_length c s.data
  unfold splitTwo
  rcases h : splitOnChar c s.data with _ | ⟨a, _ | ⟨b, _ | ⟨d, l⟩⟩⟩
  · exact absurd h (splitOnChar_ne_nil c s.data)
  · rw [h] at hlen; simp at hlen ⊢; omega
  · rw [h] at hlen; simp at hlen ⊢; omega
  · rw [h] at hlen; simp at hlen ⊢; omega

theorem splitTwo_eq_some_of_count (c : Char) (s : String) (h : s.data.count c = 1) :
    ∃ a b, splitTwo c s = some (a, b) := by
  cases hs : splitTwo c s with
  | none => exact absurd h ((splitTwo_eq_none_iff c s).mp hs)
  | some p => obtain ⟨a, b⟩ := p; exact ⟨a, b, rfl⟩

theorem clusterOf_eq (s a b : String) (h : splitTwo '.' s = some (a, b)) : clusterOf s = a := by
  unfold clusterOf; rw [h]

theorem instanceOf_eq (s a b : String) (h : splitTwo '.' s = some (a, b)) : instanceOf s = b := by
  unfold instanceOf; rw [h]

theorem mem_insertNew (acc : List String) (c x : String) :
    x ∈ insertNew acc c ↔ x ∈ acc ∨ x = c := by
  by_cases hc : c ∈ acc
  · simp only [insertNew, if_pos hc]
    constructor
    · exact Or.inl
    · rintro (hx | rfl)
      · exact hx
      · exact hc
  · simp [insertNew, if_neg hc]

theorem nodup_insertNew (acc : List String) (c : String) (h : acc.Nodup) :
    (insertNew acc c).Nodup := by
  by_cases hc : c ∈ acc
  · simp only [insertNew, if_pos hc]; exact h
  · simp only [insertNew, if_neg hc]
    simp [List.nodup_append, h, List.disjoint_singleton, hc]

theorem mem_foldl_insertNew (l : List String) :
    ∀ acc x, x ∈ l.foldl insertNew acc ↔ x ∈ acc ∨ x ∈ l := by
  induction l with
  | nil => intro acc x; simp
  | cons a l ih =>
    intro acc x
    rw [List.foldl_cons, ih, mem_insertNew]
    simp [or_assoc]

theorem nodup_foldl_insertNew (l : List String) :
    ∀ acc, acc.Nodup → (l.foldl insertNew acc).Nodup := by
  induction l with
  | nil => intro acc h; simpa
  | cons a l ih => intro acc h; rw [List.foldl_cons]; exact ih _ (nodup_insertNew _ _ h)

theorem nodup_dedupKeepFirst (l : List String) : (dedupKeepFirst l).Nodup :=
  nodup_foldl_insertNew l [] List.nodup_nil

theorem mem_dedupKeepFirst (l : List String) (x : String) :
    x ∈ dedupKeepFirst l ↔ x ∈ l := by
  unfold dedupKeepFirst
  rw [mem_foldl_insertNew]
  simp

theorem dictLookup_dictInsert (m : List (String × String)) (k v k2 : String) :
    dictLookup (dictInsert m k v) k2 = if k = k2 then some v else dictLookup m k2 := by
  induction m with
  | nil => simp [dictInsert, dictLookup]
  | cons e rest ih =>
    by_cases he : e.1 = k
    · simp only [dictInsert, if_pos he, dictLookup]
      by_cases hk : k = k2
      · simp [hk]
      · have : e.1 ≠ k2 := by rw [he]; exact hk
        simp [hk, this]
    · simp only [dictInsert, if_neg he, dictLookup, ih]
      by_cases hek : e.1 = k2
      · have : k ≠ k2 := by rw [← hek]; exact fun hh => he hh.symm
        simp [hek, this]
      · simp [hek]

theorem ldc_aux_cons (actual : List (String × String)) (ns : String) (rest acc : List String)
    (a b : String) (hab : splitTwo '.' ns = some (a, b)) :
    list_deployed_clusters_aux actual (ns :: rest) acc =
      if dictContains actual ns then
        (if a ∈ acc then list_deployed_clusters_aux actual rest acc
         else list_deployed_clusters_aux actual rest (acc ++ [a]))
      else list_deployed_clusters_aux actual rest acc := by
  simp only [list_deployed_clusters_aux, hab]

theorem ldc_aux_eq (actual : List (String × String)) :
    ∀ pipeline : List String, (∀ t ∈ pipeline, t.data.count '.' = 1) →
      ∀ acc, list_deployed_clusters_aux actual pipeline acc =
        some (pipeline.foldl
          (fun a t => if dictContains actual t then insertNew a (clusterOf t) else a) acc) := by
  intro pipeline
  induction pipeline with
  | nil => intro _ acc; simp [list_deployed_clusters_aux]
  | cons ns rest ih =>
    intro h acc
    obtain ⟨a, b, hab⟩ := splitTwo_eq_some_of_count '.' ns (h ns (by simp))
    have hrest : ∀ t ∈ rest, t.data.count '.' = 1 := fun t ht => h t (by simp [ht])
    have hcl : clusterOf ns = a := clusterOf_eq ns a b hab
    rw [ldc_aux_cons actual ns rest acc a b hab, List.foldl_cons, hcl]
    by_cases hm : dictContains actual ns = true
    · rw [if_pos hm, if_pos hm]
      by_cases hacc : a ∈ acc
      · rw [if_pos hacc]
        simp only [insertNew, if_pos hacc]
        exact ih hrest acc
      · rw [if_neg hacc]
        simp only [insertNew, if_neg hacc]
        exact ih hrest (acc ++ [a])
    · rw [if_neg hm, if_neg hm]
      exact ih hrest acc

theorem foldl_filterContains (actual : List (String × String)) :
    ∀ (l : List String) (acc : List String),
      l.foldl (fun a t => if dictContains actual t then insertNew a (clusterOf t) else a) acc =
        ((l.filter (fun t => dictContains actual t)).map clusterOf).foldl insertNew acc := by
  intro l
  induction l with
  | nil => intro acc; rfl
  | cons t l ih =>
    intro acc
    rw [List.foldl_cons, List.filter_cons]
    by_cases hm : dictContains actual t = true
    · rw [if_pos hm, if_pos hm, List.map_cons, List.foldl_cons]
      exact ih _
    · rw [if_neg hm, if_neg hm]
      exact ih acc

theorem list_deployed_clusters_eq (pipeline : List String) (actual : List (String × String))
    (h : ∀ t ∈ pipeline, t.data.count '.' = 1) :
    list_deployed_clusters pipeline actual =
      some (dedupKeepFirst ((pipeline.filter (fun t => dictContains actual t)).map clusterOf)) := by
  unfold list_deployed_clusters
  rw [ldc_aux_eq actual pipeline h [], foldl_filterContains]
  rfl

/-- Claim C1: for every target sequence whose elements are well-formed
`cluster.instance` keys and every actual-deployment mapping,
`list_deployed_clusters` returns the cluster names of the targets whose full
key is in the mapping, in first-appearance order, without duplicates; a
cluster is in the output iff one of its targets is a key of the mapping. -/
theorem claim_C1 (pipeline : List String) (actual : List (String × String))
    (h : ∀ t ∈ pipeline, t.data.count '.' = 1) :
    ∃ l, list_deployed_clusters pipeline actual = some l ∧
      l = dedupKeepFirst ((pipeline.filter (fun t => dictContains actual t)).map clusterOf) ∧
      l.Nodup ∧
      ∀ c, (c ∈ l ↔ ∃ t, t ∈ pipeline ∧ dictContains actual t = true ∧ clusterOf t = c) := by
  refine ⟨_, list_deployed_clusters_eq pipeline actual h, rfl, nodup_dedupKeepFirst _, ?_⟩
  intro c
  rw [mem_dedupKeepFirst]
  simp only [List.mem_map, List.mem_filter]
  constructor
  · rintro ⟨t, ⟨h1, h2⟩, h3⟩
    exact ⟨t, h1, h2, h3⟩
  · rintro ⟨t, h1, h2, h3⟩
    exact ⟨t, ⟨h1, h2⟩, h3⟩

/-- Witness for claim C1 at the inputs of Scenario C of the spec. -/
theorem claim_C1_witness :
    (∀ t ∈ (["norcal-prod.main", "nova-prod.main"] : List String), t.data.count '.' = 1) ∧
    ∃ l, list_deployed_clusters ["norcal-prod.main", "nova-prod.main"]
          [("norcal-prod.main", "a1b2c3d4")] = some l ∧
      l = dedupKeepFirst (((["norcal-prod.main", "nova-prod.main"] : List String).filter
            (fun t => dictContains [("norcal-prod.main", "a1b2c3d4")] t)).map clusterOf) ∧
      l.Nodup ∧
      ∀ c, (c ∈ l ↔ ∃ t, t ∈ (["norcal-prod.main", "nova-prod.main"] : List String) ∧
            dictContains [("norcal-prod.main", "a1b2c3d4")] t = true ∧ clusterOf t = c) :=
  ⟨by decide, claim_C1 _ _ (by decide)⟩

theorem addStep_map_fst (c i : String) :
    ∀ d : List (String × List String), (addStep d c i).map Prod.fst = insertNew (d.map Prod.fst) c := by
  intro d
  induction d with
  | nil => simp [addStep, insertNew]
  | cons e rest ih =>
    by_cases he : e.1 = c
    · simp only [addStep, if_pos he, List.map_cons]
      have hc : c ∈ e.1 :: rest.map Prod.fst := List.mem_cons.mpr (Or.inl he.symm)
      simp only [insertNew, if_pos hc]
    · simp only [addStep, if_neg he, List.map_cons, ih]
      by_cases hc : c ∈ rest.map Prod.fst
      · have hc2 : c ∈ e.1 :: rest.map Prod.fst := List.mem_cons_of_mem _ hc
        simp only [insertNew, if_pos hc, if_pos hc2]
      · have hc2 : c ∉ e.1 :: rest.map Prod.fst := by
          intro hmem
          rcases List.mem_cons.mp hmem with h1 | h2
          · exact he h1.symm
          · exact hc h2
        simp only [insertNew, if_neg hc, if_neg hc2, List.cons_append]

theorem addStep_groupLookup (c i : String) :
    ∀ (d : List (String × List String)) (c2 : String),
      groupLookup (addStep d c i) c2 =
        if c2 = c then groupLookup d c2 ++ [i] else groupLookup d c2 := by
  intro d
  induction d with
  | nil =>
    intro c2
    by_cases hc : c2 = c
    · subst hc
      simp [addStep, groupLookup]
    · have hc2 : ¬(c = c2) := fun h => hc h.symm
      simp [addStep, groupLookup, hc, hc2]
  | cons e rest ih =>
    intro c2
    by_cases he : e.1 = c
    · subst he
      simp only [addStep, if_pos rfl, groupLookup]
      by_cases h2 : e.1 = c2
      · subst h2
        simp
      · have h2s : ¬(c2 = e.1) := fun h => h2 h.symm
        simp [h2, h2s]
    · simp only [addStep, if_neg he, groupLookup, ih]
      by_cases h2 : e.1 = c2
      · subst h2
        have : ¬(e.1 = c) := he
        simp [this]
      · by_cases hc2 : c2 = c <;> simp [h2, hc2, he]

theorem build_cons_skip (nonDeploy : List String) (ns : String) (rest : List String)
    (d : List (String × List String)) (hmem : ns ∈ nonDeploy) :
    build_cluster_dict nonDeploy (ns :: rest) d = build_cluster_dict nonDeploy rest d := by
  simp only [build_cluster_dict, if_pos hmem]

theorem build_cons_deploy (nonDeploy : List String) (ns : String) (rest : List String)
    (d : List (String × List String)) (a b : String)
    (hmem : ns ∉ nonDeploy) (hab : splitTwo '.' ns = some (a, b)) :
    build_cluster_dict nonDeploy (ns :: rest) d = build_cluster_dict nonDeploy rest (addStep d a b) := by
  simp only [build_cluster_dict, if_neg hmem, hab]

theorem build_cons_bad (nonDeploy : List String) (ns : String) (rest : List String)
    (d : List (String × List String)) (hmem : ns ∉ nonDeploy) (hbad : splitTwo '.' ns = none) :
    build_cluster_dict nonDeploy (ns :: rest) d = none := by
  simp only [build_cluster_dict, if_neg hmem, hbad]

theorem build_aux_eq (nonDeploy : List String) :
    ∀ pipeline : List String, (∀ ns ∈ pipeline, ns ∉ nonDeploy → ns.data.count '.' = 1) →
      ∀ d, build_cluster_dict nonDeploy pipeline d =
        some ((deploySteps pipeline nonDeploy).foldl
          (fun d2 t => addStep d2 (clusterOf t) (instanceOf t)) d) := by
  intro pipeline
  induction pipeline with
  | nil => intro _ d; simp [build_cluster_dict, deploySteps]
  | cons ns rest ih =>
    intro h d
    have hrest : ∀ t ∈ rest, t ∉ nonDeploy → t.data.count '.' = 1 :=
      fun t ht => h t (by simp [ht])
    by_cases hmem : ns ∈ nonDeploy
    · rw [build_cons_skip nonDeploy ns rest d hmem]
      have hds : deploySteps (ns :: rest) nonDeploy = deploySteps rest nonDeploy := by
        simp [deploySteps, List.filter_cons, hmem]
      rw [hds]
      exact ih hrest d
    · obtain ⟨a, b, hab⟩ := splitTwo_eq_some_of_count '.' ns (h ns (by simp) hmem)
      rw [build_cons_deploy nonDeploy ns rest d a b hmem hab]
      have hds : deploySteps (ns :: rest) nonDeploy = ns :: deploySteps rest nonDeploy := by
        simp [deploySteps, List.filter_cons, hmem]
      rw [hds, List.foldl_cons, clusterOf_eq ns a b hab, instanceOf_eq ns a b hab]
      exact ih hrest (addStep d a b)

theorem foldl_addStep_map_fst :
    ∀ (steps : List String) (d : List (String × List String)),
      ((steps.foldl (fun d2 t => addStep d2 (clusterOf t) (instanceOf t)) d).map Prod.fst) =
        (steps.map clusterOf).foldl insertNew (d.map Prod.fst) := by
  intro steps
  induction steps with
  | nil => intro d; rfl
  | cons t steps ih =>
    intro d
    rw [List.foldl_cons, List.map_cons, List.foldl_cons, ih, addStep_map_fst]

theorem foldl_addStep_groupLookup :
    ∀ (steps : List String) (d : List (String × List String)) (c : String),
      groupLookup (steps.foldl (fun d2 t => addStep d2 (clusterOf t) (instanceOf t)) d) c =
        groupLookup d c ++ (steps.filter (fun t => decide (clusterOf t = c))).map instanceOf := by
  intro steps
  induction steps with
  | nil => intro d c; simp
  | cons t steps ih =>
    intro d c
    rw [List.foldl_cons, ih, addStep_groupLookup, List.filter_cons]
    by_cases hc : clusterOf t = c
    · rw [if_pos (by rw [hc]), if_pos (by simp [hc])]
      simp [List.append_assoc]
    · rw [if_neg (fun h => hc h.symm), if_neg (by simp [hc])]

theorem assoc_eq_canonical :
    ∀ d : List (String × List String), (d.map Prod.fst).Nodup →
      d = (d.map Prod.fst).map (fun c => (c, groupLookup d c)) := by
  intro d
  induction d with
  | nil => intro _; rfl
  | cons e rest ih =>
    intro hnd
    have hnotin : e.1 ∉ rest.map Prod.fst := (List.nodup_cons.mp hnd).1
    have hrest : (rest.map Prod.fst).Nodup := (List.nodup_cons.mp hnd).2
    have h2 : ∀ c ∈ rest.map Prod.fst,
        (fun c => (c, groupLookup (e :: rest) c)) c = (fun c => (c, groupLookup rest c)) c := by
      intro c hc
      have hne : ¬(e.1 = c) := fun h => hnotin (h ▸ hc)
      simp [groupLookup, hne]
    simp only [List.map_cons]
    rw [List.map_congr_left h2, ← ih hrest]
    have hhead : groupLookup (e :: rest) e.1 = e.2 := by simp [groupLookup]
    rw [hhead]

/-- Claim C2: the planner skips steps in the non-deploy set and yields flat
targets grouped with clusters in first-appearance order, instances within a
cluster in appearance order with duplicates preserved; in particular the raw
steps of Scenario A with non-deploy set `{itest}` yield exactly
`["norcal-prod.main", "nova-prod.main"]`. -/
theorem claim_C2 (pipeline nonDeploy : List String)
    (h : ∀ ns ∈ pipeline, ns ∉ nonDeploy → ns.data.count '.' = 1) :
    get_planned_deployments pipeline nonDeploy =
      some (((dedupKeepFirst ((deploySteps pipeline nonDeploy).map clusterOf)).map (fun c =>
        (((deploySteps pipeline nonDeploy).filter
            (fun t => decide (clusterOf t = c))).map instanceOf).map
          (fun i => c ++ "." ++ i))).flatten)
    ∧ get_planned_deployments ["itest", "norcal-prod.main", "nova-prod.main"] ["itest"] =
        some ["norcal-prod.main", "nova-prod.main"] := by
  constructor
  · have hbuild := build_aux_eq nonDeploy pipeline h []
    have hg : get_planned_deployments pipeline nonDeploy =
        some (flattenPlanned ((deploySteps pipeline nonDeploy).foldl
          (fun d2 t => addStep d2 (clusterOf t) (instanceOf t)) [])) := by
      unfold get_planned_deployments
      rw [hbuild]
    rw [hg]
    have hfst : ((deploySteps pipeline nonDeploy).foldl
          (fun d2 t => addStep d2 (clusterOf t) (instanceOf t)) []).map Prod.fst =
        dedupKeepFirst ((deploySteps pipeline nonDeploy).map clusterOf) := by
      rw [foldl_addStep_map_fst]
      rfl
    have hlook : ∀ c, groupLookup ((deploySteps pipeline nonDeploy).foldl
          (fun d2 t => addStep d2 (clusterOf t) (instanceOf t)) []) c =
        ((deploySteps pipeline nonDeploy).filter
          (fun t => decide (clusterOf t = c))).map instanceOf := by
      intro c
      rw [foldl_addStep_groupLookup]
      simp [groupLookup]
    have hnd : (((deploySteps pipeline nonDeploy).foldl
          (fun d2 t => addStep d2 (clusterOf t) (instanceOf t)) []).map Prod.fst).Nodup := by
      rw [hfst]; exact nodup_dedupKeepFirst _
    have hD := assoc_eq_canonical _ hnd
    conv_lhs => rw [hD]
    rw [hfst]
    unfold flattenPlanned
    rw [List.map_map]
    have hmaps : ∀ c ∈ dedupKeepFirst ((deploySteps pipeline nonDeploy).map clusterOf),
        ((fun e => e.2.map (fun i => e.1 ++ "." ++ i)) ∘
          (fun c => (c, groupLookup ((deploySteps pipeline nonDeploy).foldl
            (fun d2 t => addStep d2 (clusterOf t) (instanceOf t)) []) c))) c =
        (fun c => (((deploySteps pipeline nonDeploy).filter
            (fun t => decide (clusterOf t = c))).map instanceOf).map
          (fun i => c ++ "." ++ i)) c := by
      intro c _
      simp only [Function.comp]
      rw [hlook c]
    rw [List.map_congr_left hmaps]
  · decide

/-- Witness for claim C2 at a pipeline with an interleaved duplicate
instance, exercising grouping and duplicate preservation. -/
theorem claim_C2_witness :
    (∀ ns ∈ (["itest", "a.x", "b.y", "a.x"] : List String),
        ns ∉ (["itest"] : List String) → ns.data.count '.' = 1) ∧
    (get_planned_deployments ["itest", "a.x", "b.y", "a.x"] ["itest"] =
      some (((dedupKeepFirst ((deploySteps ["itest", "a.x", "b.y", "a.x"] ["itest"]).map
          clusterOf)).map (fun c =>
        (((deploySteps ["itest", "a.x", "b.y", "a.x"] ["itest"]).filter
            (fun t => decide (clusterOf t = c))).map instanceOf).map
          (fun i => c ++ "." ++ i))).flatten)
    ∧ get_planned_deployments ["itest", "norcal-prod.main", "nova-prod.main"] ["itest"] =
        some ["norcal-prod.main", "nova-prod.main"]) :=
  ⟨by decide, claim_C2 ["itest", "a.x", "b.y", "a.x"] ["itest"] (by decide)⟩

theorem build_none_iff (nonDeploy : List String) :
    ∀ (pipeline : List String) (d : List (String × List String)),
      build_cluster_dict nonDeploy pipeline d = none ↔
        ∃ ns, ns ∈ pipeline ∧ ns ∉ nonDeploy ∧ ns.data.count '.' ≠ 1 := by
  intro pipeline
  induction pipeline with
  | nil => intro d; simp [build_cluster_dict]
  | cons ns rest ih =>
    intro d
    by_cases hmem : ns ∈ nonDeploy
    · rw [build_cons_skip nonDeploy ns rest d hmem, ih]
      constructor
      · rintro ⟨t, ht, h2, h3⟩
        exact ⟨t, List.mem_cons_of_mem _ ht, h2, h3⟩
      · rintro ⟨t, ht, h2, h3⟩
        rcases List.mem_cons.mp ht with rfl | ht2
        · exact absurd hmem h2
        · exact ⟨t, ht2, h2, h3⟩
    · cases hs : splitTwo '.' ns with
      | none =>
        rw [build_cons_bad nonDeploy ns rest d hmem hs]
        have hbad : ns.data.count '.' ≠ 1 := (splitTwo_eq_none_iff '.' ns).mp hs
        simp only [true_iff]
        exact ⟨ns, by simp, hmem, hbad⟩
      | some ci =>
        obtain ⟨a, b⟩ := ci
        rw [build_cons_deploy nonDeploy ns rest d a b hmem hs, ih]
        have hok : ns.data.count '.' = 1 := by
          by_contra hne
          have h2 : splitTwo '.' ns = none := (splitTwo_eq_none_iff '.' ns).mpr hne
          rw [h2] at hs
          cases hs
        constructor
        · rintro ⟨t, ht, h2, h3⟩
          exact ⟨t, List.mem_cons_of_mem _ ht, h2, h3⟩
        · rintro ⟨t, ht, h2, h3⟩
          rcases List.mem_cons.mp ht with rfl | ht2
          · exact absurd hok h3
          · exact ⟨t, ht2, h2, h3⟩

/-- Claim C8: the planner fails exactly when some deploy step's namespace does
not contain exactly one `.` separator; in particular a pipeline whose deploy
steps all contain exactly one `.` never triggers the failure. -/
theorem claim_C8 (pipeline nonDeploy : List String) :
    get_planned_deployments pipeline nonDeploy = none ↔
      ∃ ns, ns ∈ pipeline ∧ ns ∉ nonDeploy ∧ ns.data.count '.' ≠ 1 := by
  have h := build_none_iff nonDeploy pipeline []
  unfold get_planned_deployments
  cases hb : build_cluster_dict nonDeploy pipeline [] with
  | none =>
    rw [hb] at h
    exact ⟨fun _ => h.mp rfl, fun _ => rfl⟩
  | some d =>
    rw [hb] at h
    exact ⟨fun hc => Option.noConfusion hc, fun hex => Option.noConfusion (h.mpr hex)⟩

theorem report_aux_cons_bad (cluster : String) (actual : List (String × String))
    (probe : RemoteProbe) (ns : String) (rest : List String)
    (hbad : splitTwo '.' ns = none) :
    report_status_for_cluster_aux cluster actual probe (ns :: rest) = none := by
  simp only [report_status_for_cluster_aux, hbad]

theorem report_aux_cons_skip (cluster : String) (actual : List (String × String))
    (probe : RemoteProbe) (ns : String) (rest : List String) (a b : String)
    (hab : splitTwo '.' ns = some (a, b)) (hne : a ≠ cluster) :
    report_status_for_cluster_aux cluster actual probe (ns :: rest) =
      report_status_for_cluster_aux cluster actual probe rest := by
  simp only [report_status_for_cluster_aux, hab, if_pos hne]

theorem report_aux_cons_deployed (cluster : String) (actual : List (String × String))
    (probe : RemoteProbe) (ns : String) (rest : List String) (a b v : String)
    (ls : List (String × String × Option String))
    (hab : splitTwo '.' ns = some (a, b)) (heq : a = cluster)
    (hl : dictLookup actual ns = some v)
    (hrest : report_status_for_cluster_aux cluster actual probe rest = some ls) :
    report_status_for_cluster_aux cluster actual probe (ns :: rest) =
      some ((b, pyTake8 v, some (probe cluster b)) :: ls) := by
  simp only [report_status_for_cluster_aux, hab, hl, hrest,
    if_neg (show ¬a ≠ cluster from fun hn => hn heq)]

theorem report_aux_cons_notdeployed (cluster : String) (actual : List (String × String))
    (probe : RemoteProbe) (ns : String) (rest : List String) (a b : String)
    (ls : List (String × String × Option String))
    (hab : splitTwo '.' ns = some (a, b)) (heq : a = cluster)
    (hl : dictLookup actual ns = none)
    (hrest : report_status_for_cluster_aux cluster actual probe rest = some ls) :
    report_status_for_cluster_aux cluster actual probe (ns :: rest) =
      some ((b, "None", none) :: ls) := by
  simp only [report_status_for_cluster_aux, hab, hl, hrest,
    if_neg (show ¬a ≠ cluster from fun hn => hn heq)]

theorem report_aux_eq (cluster : String) (actual : List (String × String)) (probe : RemoteProbe) :
    ∀ pipeline : List String, (∀ t ∈ pipeline, t.data.count '.' = 1) →
      report_status_for_cluster_aux cluster actual probe pipeline =
        some ((pipeline.filter (fun t => decide (clusterOf t = cluster))).map
          (lineFor cluster actual probe)) := by
  intro pipeline
  induction pipeline with
  | nil => intro _; rfl
  | cons ns rest ih =>
    intro h
    obtain ⟨a, b, hab⟩ := splitTwo_eq_some_of_count '.' ns (h ns (by simp))
    have hrest : ∀ t ∈ rest, t.data.count '.' = 1 := fun t ht => h t (by simp [ht])
    have hcl : clusterOf ns = a := clusterOf_eq ns a b hab
    have hin : instanceOf ns = b := instanceOf_eq ns a b hab
    rw [List.filter_cons]
    by_cases hc : a = cluster
    · have hdec : decide (clusterOf ns = cluster) = true := by simp [hcl, hc]
      rw [hdec, if_pos rfl, List.map_cons]
      cases hl : dictLookup actual ns with
      | some v =>
        rw [report_aux_cons_deployed cluster actual probe ns rest a b v _ hab hc hl (ih hrest)]
        have hline : lineFor cluster actual probe ns = (b, pyTake8 v, some (probe cluster b)) := by
          simp [lineFor, hl, hin]
        rw [hline]
      | none =>
        rw [report_aux_cons_notdeployed cluster actual probe ns rest a b _ hab hc hl (ih hrest)]
        have hline : lineFor cluster actual probe ns = (b, "None", none) := by
          simp [lineFor, hl, hin]
        rw [hline]
    · have hdec : decide (clusterOf ns = cluster) = false := by simp [hcl, hc]
      rw [hdec, if_neg (by simp), report_aux_cons_skip cluster actual probe ns rest a b hab hc]
      exact ih hrest

/-- Claim C3 counterexample: with actual version `"123456789"` (nine
characters), the produced status line carries the eight-character truncation
`"12345678"`, not `actual[target]`, so the claimed output (a line carrying
the full version) is not produced. -/
theorem claim_C3_cex :
    report_status_for_cluster "c" ["c.i"] [("c.i", "123456789")] (fun _ _ => "up") =
      some [("i", "12345678", some "up")]
    ∧ report_status_for_cluster "c" ["c.i"] [("c.i", "123456789")] (fun _ _ => "up") ≠
      some [("i", "123456789", some "up")]
    ∧ ("12345678" : String) ≠ "123456789" := by
  refine ⟨by decide, by decide, by decide⟩

/-- Claim C3 as amended: for every flat-target sequence of well-formed
targets, the per-cluster classification produces exactly one status line per
target of the given cluster, in input order: deployed with version equal to
the FIRST EIGHT CHARACTERS of `actual[target]` and the probe text when the
target is a key of the mapping, and not-deployed (version text `None`, no
probe text) otherwise; Scenario C behaves as the spec states. -/
theorem claim_C3 (cluster : String) (pipeline : List String)
    (actual : List (String × String)) (probe : RemoteProbe)
    (h : ∀ t ∈ pipeline, t.data.count '.' = 1) :
    report_status_for_cluster cluster pipeline actual probe =
      some ((pipeline.filter (fun t => decide (clusterOf t = cluster))).map
        (lineFor cluster actual probe))
    ∧ (∀ ns v, dictLookup actual ns = some v →
        lineFor cluster actual probe ns =
          (instanceOf ns, pyTake8 v, some (probe cluster (instanceOf ns))))
    ∧ (∀ ns, dictLookup actual ns = none →
        lineFor cluster actual probe ns = (instanceOf ns, "None", none))
    ∧ report_status_for_cluster "norcal-prod" ["norcal-prod.main", "nova-prod.main"]
        [("norcal-prod.main", "a1b2c3d4")] (fun _ _ => "probe text") =
        some [("main", "a1b2c3d4", some "probe text")]
    ∧ report_status_for_cluster "nova-prod" ["norcal-prod.main", "nova-prod.main"]
        [("norcal-prod.main", "a1b2c3d4")] (fun _ _ => "probe text") =
        some [("main", "None", none)] := by
  refine ⟨report_aux_eq cluster actual probe pipeline h, ?_, ?_, by decide, by decide⟩
  · intro ns v hl
    simp [lineFor, hl]
  · intro ns hl
    simp [lineFor, hl]

/-- Witness for the amended claim C3 at a two-target cluster with one
deployed and one undeployed instance. -/
theorem claim_C3_witness :
    (∀ t ∈ (["c.i", "c.j"] : List String), t.data.count '.' = 1) ∧
    (report_status_for_cluster "c" ["c.i", "c.j"] [("c.i", "abcdefghij")] (fun _ _ => "up") =
      some (((["c.i", "c.j"] : List String).filter (fun t => decide (clusterOf t = "c"))).map
        (lineFor "c" [("c.i", "abcdefghij")] (fun _ _ => "up")))
    ∧ (∀ ns v, dictLookup [("c.i", "abcdefghij")] ns = some v →
        lineFor "c" [("c.i", "abcdefghij")] (fun _ _ => "up") ns =
          (instanceOf ns, pyTake8 v, some ((fun _ _ => "up") "c" (instanceOf ns))))
    ∧ (∀ ns, dictLookup [("c.i", "abcdefghij")] ns = none →
        lineFor "c" [("c.i", "abcdefghij")] (fun _ _ => "up") ns =
          (instanceOf ns, "None", none))
    ∧ report_status_for_cluster "norcal-prod" ["norcal-prod.main", "nova-prod.main"]
        [("norcal-prod.main", "a1b2c3d4")] (fun _ _ => "probe text") =
        some [("main", "a1b2c3d4", some "probe text")]
    ∧ report_status_for_cluster "nova-prod" ["norcal-prod.main", "nova-prod.main"]
        [("norcal-prod.main", "a1b2c3d4")] (fun _ _ => "probe text") =
        some [("main", "None", none)]) :=
  ⟨by decide, claim_C3 "c" ["c.i", "c.j"] [("c.i", "abcdefghij")] (fun _ _ => "up") (by decide)⟩

theorem lineFor_fst (cluster : String) (actual : List (String × String)) (probe : RemoteProbe)
    (ns : String) : (lineFor cluster actual probe ns).1 = instanceOf ns := by
  unfold lineFor
  cases dictLookup actual ns <;> rfl

theorem reportClusters_eq (pipeline : List String) (actual : List (String × String))
    (probe : RemoteProbe) (hwf : ∀ t ∈ pipeline, t.data.count '.' = 1) :
    ∀ cs : List String, reportClusters pipeline actual probe cs =
      some (cs.map (fun c => (c, (pipeline.filter
        (fun t => decide (clusterOf t = c))).map (lineFor c actual probe)))) := by
  intro cs
  induction cs with
  | nil => rfl
  | cons c rest ih =>
    have hc : report_status_for_cluster c pipeline actual probe =
        some ((pipeline.filter (fun t => decide (clusterOf t = c))).map
          (lineFor c actual probe)) :=
      report_aux_eq c actual probe pipeline hwf
    simp only [reportClusters, hc, ih, List.map_cons]

theorem map_fst_pair (g : String → List (String × String × Option String)) :
    ∀ cs : List String, (cs.map (fun c => (c, g c))).map (fun cr => cr.1) = cs := by
  intro cs
  induction cs with
  | nil => rfl
  | cons c cs ih => simp [ih]

theorem report_status_eq (pipeline : List String) (actual : List (String × String))
    (filt : Option (List String)) (probe : RemoteProbe)
    (hwf : ∀ t ∈ pipeline, t.data.count '.' = 1) :
    report_status pipeline actual filt probe =
      some ((selectedClusters filt (dedupKeepFirst ((pipeline.filter
            (fun t => dictContains actual t)).map clusterOf))).map
          (fun c => (c, (pipeline.filter (fun t => decide (clusterOf t = c))).map
            (lineFor c actual probe))),
        report_bogus_filters filt (dedupKeepFirst ((pipeline.filter
          (fun t => dictContains actual t)).map clusterOf))) := by
  have hldc := list_deployed_clusters_eq pipeline actual hwf
  have hrc := reportClusters_eq pipeline actual probe hwf
    (selectedClusters filt (dedupKeepFirst ((pipeline.filter
      (fun t => dictContains actual t)).map clusterOf)))
  simp only [report_status, hldc, hrc]

/-- Claim C6: a probe result for one deployed instance, failure text included,
never aborts the report: with any two probes agreeing except possibly at
instance `i0`, both reports succeed, both contain one line per target of the
cluster in input order, lines of instances other than `i0` coincide, and the
full per-cluster report covers the same clusters under either probe. -/
theorem claim_C6 (cluster : String) (pipeline : List String) (actual : List (String × String))
    (p p2 : RemoteProbe) (i0 : String)
    (hwf : ∀ t ∈ pipeline, t.data.count '.' = 1)
    (hagree : ∀ i, i ≠ i0 → p cluster i = p2 cluster i) :
    ∃ ls ls2,
      report_status_for_cluster cluster pipeline actual p = some ls ∧
      report_status_for_cluster cluster pipeline actual p2 = some ls2 ∧
      ls.map (fun e => e.1) =
        (pipeline.filter (fun t => decide (clusterOf t = cluster))).map instanceOf ∧
      ls2.map (fun e => e.1) =
        (pipeline.filter (fun t => decide (clusterOf t = cluster))).map instanceOf ∧
      (∀ e ∈ ls.zip ls2, e.1.1 ≠ i0 → e.1 = e.2) ∧
      (∀ filt, ∃ r r2, report_status pipeline actual filt p = some r ∧
        report_status pipeline actual filt p2 = some r2 ∧
        r.1.map (fun cr => cr.1) = r2.1.map (fun cr => cr.1)) := by
  refine ⟨_, _, report_aux_eq cluster actual p pipeline hwf,
    report_aux_eq cluster actual p2 pipeline hwf, ?_, ?_, ?_, ?_⟩
  · rw [List.map_map]
    exact List.map_congr_left (fun t _ => lineFor_fst cluster actual p t)
  · rw [List.map_map]
    exact List.map_congr_left (fun t _ => lineFor_fst cluster actual p2 t)
  · rw [List.zip_map']
    intro e he hne
    obtain ⟨t, ht, rfl⟩ := List.mem_map.mp he
    rw [lineFor_fst] at hne
    show lineFor cluster actual p t = lineFor cluster actual p2 t
    unfold lineFor
    cases hl : dictLookup actual t with
    | none => rfl
    | some v => rw [hagree (instanceOf t) hne]
  · intro filt
    exact ⟨_, _, report_status_eq pipeline actual filt p hwf,
      report_status_eq pipeline actual filt p2 hwf,
      by rw [map_fst_pair, map_fst_pair]⟩

/-- Witness for claim C6: two probes differing only in what they report for
instance `a` (one reporting failure text), on a cluster with two deployed
instances. -/
theorem claim_C6_witness :
    (∀ t ∈ (["c.a", "c.b"] : List String), t.data.count '.' = 1) ∧
    (∀ i : String, i ≠ "a" →
      (fun _ i => if i = "a" then "ERROR: probe failed" else "ok" : RemoteProbe) "c" i =
      (fun _ i => if i = "a" then "all good" else "ok" : RemoteProbe) "c" i) ∧
    (∃ ls ls2,
      report_status_for_cluster "c" ["c.a", "c.b"] [("c.a", "v1"), ("c.b", "v2")]
        (fun _ i => if i = "a" then "ERROR: probe failed" else "ok") = some ls ∧
      report_status_for_cluster "c" ["c.a", "c.b"] [("c.a", "v1"), ("c.b", "v2")]
        (fun _ i => if i = "a" then "all good" else "ok") = some ls2 ∧
      ls.map (fun e => e.1) =
        ((["c.a", "c.b"] : List String).filter
          (fun t => decide (clusterOf t = "c"))).map instanceOf ∧
      ls2.map (fun e => e.1) =
        ((["c.a", "c.b"] : List String).filter
          (fun t => decide (clusterOf t = "c"))).map instanceOf ∧
      (∀ e ∈ ls.zip ls2, e.1.1 ≠ "a" → e.1 = e.2) ∧
      (∀ filt, ∃ r r2, report_status ["c.a", "c.b"] [("c.a", "v1"), ("c.b", "v2")] filt
          (fun _ i => if i = "a" then "ERROR: probe failed" else "ok") = some r ∧
        report_status ["c.a", "c.b"] [("c.a", "v1"), ("c.b", "v2")] filt
          (fun _ i => if i = "a" then "all good" else "ok") = some r2 ∧
        r.1.map (fun cr => cr.1) = r2.1.map (fun cr => cr.1))) :=
  ⟨by decide, fun i hi => by simp [hi],
    claim_C6 "c" ["c.a", "c.b"] [("c.a", "v1"), ("c.b", "v2")]
      (fun _ i => if i = "a" then "ERROR: probe failed" else "ok")
      (fun _ i => if i = "a" then "all good" else "ok") "a"
      (by decide) (fun i hi => by simp [hi])⟩

theorem gad_aux_cons_bad (service key image : String) (rest m : List (String × String))
    (hbad : splitTwo ':' key = none) :
    get_actual_deployments_aux service ((key, image) :: rest) m = none := by
  simp only [get_actual_deployments_aux, hbad]

theorem gad_aux_cons_keep (service key image : String) (rest m : List (String × String))
    (sv ns : String) (hsn : splitTwo ':' key = some (sv, ns)) (hsvc : sv = service) :
    get_actual_deployments_aux service ((key, image) :: rest) m =
      get_actual_deployments_aux service rest
        (dictInsert m (stripPaasta ns) (shaFromImage image)) := by
  simp only [get_actual_deployments_aux, hsn, if_pos hsvc]

theorem gad_aux_cons_skip (service key image : String) (rest m : List (String × String))
    (sv ns : String) (hsn : splitTwo ':' key = some (sv, ns)) (hsvc : ¬sv = service) :
    get_actual_deployments_aux service ((key, image) :: rest) m =
      get_actual_deployments_aux service rest m := by
  simp only [get_actual_deployments_aux, hsn, if_neg hsvc]

theorem gad_aux_mem (service : String) :
    ∀ (record m m2 : List (String × String)),
      get_actual_deployments_aux service record m = some m2 →
      ∀ k v, dictLookup m2 k = some v →
        dictLookup m k = some v ∨
        ∃ e, e ∈ record ∧ serviceOf e.1 = service ∧
          k = stripPaasta (nsOf e.1) ∧ v = shaFromImage e.2 := by
  intro record
  induction record with
  | nil =>
    intro m m2 hm k v hk
    have hmm : m = m2 := by
      simpa [get_actual_deployments_aux] using hm
    left
    rw [hmm]
    exact hk
  | cons e rest ih =>
    intro m m2 hm k v hk
    obtain ⟨key, image⟩ := e
    cases hsn : splitTwo ':' key with
    | none =>
      rw [gad_aux_cons_bad service key image rest m hsn] at hm
      cases hm
    | some sn =>
      obtain ⟨sv, ns⟩ := sn
      have hsvcOf : serviceOf key = sv := by unfold serviceOf; rw [hsn]
      have hnsOf : nsOf key = ns := by unfold nsOf; rw [hsn]
      by_cases hsvc : sv = service
      · rw [gad_aux_cons_keep service key image rest m sv ns hsn hsvc] at hm
        rcases ih _ _ hm k v hk with hlook | ⟨e2, he2, h2, h3, h4⟩
        · rw [dictLookup_dictInsert] at hlook
          by_cases hkk : stripPaasta ns = k
          · right
            refine ⟨(key, image), by simp, ?_, ?_, ?_⟩
            · rw [hsvcOf]; exact hsvc
            · rw [hnsOf]; exact hkk.symm
            · rw [if_pos hkk] at hlook
              exact (Option.some.inj hlook).symm
          · rw [if_neg hkk] at hlook
            left
            exact hlook
        · right
          exact ⟨e2, List.mem_cons_of_mem _ he2, h2, h3, h4⟩
      · rw [gad_aux_cons_skip service key image rest m sv ns hsn hsvc] at hm
        rcases ih _ _ hm k v hk with hlook | ⟨e2, he2, h2, h3, h4⟩
        · left; exact hlook
        · right; exact ⟨e2, List.mem_cons_of_mem _ he2, h2, h3, h4⟩

theorem rfindDash_eq_none_iff (l : List Char) : rfindDash l = none ↔ '-' ∉ l := by
  induction l with
  | nil => simp [rfindDash]
  | cons x xs ih =>
    cases h : rfindDash xs with
    | some i =>
      have hmem : '-' ∈ xs := by
        by_contra hn
        rw [← ih] at hn
        rw [h] at hn
        cases hn
      simp only [rfindDash, h]
      simp [hmem]
    | none =>
      have hxs : '-' ∉ xs := ih.mp h
      simp only [rfindDash, h]
      by_cases hx : x = '-'
      · subst hx
        simp
      · have hx2 : ¬('-' = x) := fun hh => hx hh.symm
        simp [hx, hx2, hxs]

theorem rfindDash_append (a b : List Char) (hb : '-' ∉ b) :
    rfindDash (a ++ '-' :: b) = some a.length := by
  induction a with
  | nil =>
    have hnone : rfindDash b = none := (rfindDash_eq_none_iff b).mpr hb
    simp [rfindDash, hnone]
  | cons x a2 ih =>
    rw [List.cons_append]
    show (match rfindDash (a2 ++ '-' :: b) with
      | some i => some (i + 1)
      | none => if x = '-' then some 0 else none) = some (x :: a2).length
    rw [ih]
    rfl

theorem shaFromImage_no_dash (s : String) (h : '-' ∉ s.data) : shaFromImage s = s := by
  unfold shaFromImage
  rw [(rfindDash_eq_none_iff s.data).mpr h]

theorem shaFromImage_after_last (s : String) (a b : List Char)
    (hs : s.data = a ++ '-' :: b) (hb : '-' ∉ b) : shaFromImage s = ⟨b⟩ := by
  unfold shaFromImage
  rw [hs, rfindDash_append a b hb]
  show String.mk ((a ++ '-' :: b).drop (a.length + 1)) = ⟨b⟩
  have hd : (a ++ '-' :: b).drop (a.length + 1) = b := by
    have h1 : a ++ '-' :: b = (a ++ ['-']) ++ b := by simp
    have h2 : (a ++ ['-']).length = a.length + 1 := by simp
    rw [h1, ← h2, List.drop_left]
  rw [hd]

/-- Claim C4: whenever reading the deployments record succeeds, every entry of
the resulting mapping comes from a record entry whose embedded service name
equals the queried service (entries of other services never appear), and the
stored version is `shaFromImage` of the entry's docker image, which is the
substring after the last `-`, or the whole string when no `-` occurs. -/
theorem claim_C4 (record : List (String × String)) (service : String)
    (m : List (String × String)) (w : Bool)
    (hget : get_actual_deployments record service = some (m, w)) :
    (∀ k v, dictLookup m k = some v →
      ∃ e, e ∈ record ∧ serviceOf e.1 = service ∧
        k = stripPaasta (nsOf e.1) ∧ v = shaFromImage e.2)
    ∧ (∀ s : String, ('-' ∉ s.data → shaFromImage s = s)
        ∧ ∀ a b : List Char, s.data = a ++ '-' :: b → '-' ∉ b → shaFromImage s = ⟨b⟩) := by
  constructor
  · intro k v hk
    unfold get_actual_deployments at hget
    cases hm : get_actual_deployments_aux service record [] with
    | none => rw [hm] at hget; cases hget
    | some m0 =>
      rw [hm] at hget
      have hprod := Option.some.inj hget
      have hm0 : m0 = m := congrArg Prod.fst hprod
      rw [hm0] at hm
      rcases gad_aux_mem service record [] m hm k v hk with hl | he
      · cases hl
      · exact he
  · intro s
    exact ⟨shaFromImage_no_dash s, fun a b hs hb => shaFromImage_after_last s a b hs hb⟩

/-- Witness for claim C4 at Scenario B's record plus a foreign-service entry
that must not appear in the result. -/
theorem claim_C4_witness :
    get_actual_deployments
        [("other:paasta-main", "img-zzz"),
         ("myservice:paasta-main", "services-myservice-a1b2c3d4")] "myservice" =
      some ([("main", "a1b2c3d4")], false) ∧
    ((∀ k v, dictLookup [("main", "a1b2c3d4")] k = some v →
      ∃ e, e ∈ [("other:paasta-main", "img-zzz"),
                ("myservice:paasta-main", "services-myservice-a1b2c3d4")] ∧
        serviceOf e.1 = "myservice" ∧
        k = stripPaasta (nsOf e.1) ∧ v = shaFromImage e.2)
    ∧ (∀ s : String, ('-' ∉ s.data → shaFromImage s = s)
        ∧ ∀ a b : List Char, s.data = a ++ '-' :: b → '-' ∉ b → shaFromImage s = ⟨b⟩)) :=
  ⟨by decide,
    claim_C4 [("other:paasta-main", "img-zzz"),
              ("myservice:paasta-main", "services-myservice-a1b2c3d4")]
      "myservice" [("main", "a1b2c3d4")] false (by decide)⟩

theorem replaceFirst_of_not_contains (pat : List Char) :
    ∀ l, containsSub pat l = false → replaceFirst pat l = l := by
  intro l
  induction l with
  | nil => intro _; rfl
  | cons x xs ih =>
    intro h
    simp only [containsSub, Bool.or_eq_false_iff] at h
    obtain ⟨h1, h2⟩ := h
    simp [replaceFirst, h1, ih h2]

theorem replaceFirst_first_occurrence (pat : List Char) (hpat : pat ≠ []) :
    ∀ a b : List Char,
      (∀ i, i < a.length → pat.isPrefixOf ((a ++ pat ++ b).drop i) = false) →
      replaceFirst pat (a ++ pat ++ b) = a ++ b := by
  intro a
  induction a with
  | nil =>
    intro b _
    cases pat with
    | nil => exact absurd rfl hpat
    | cons p ps =>
      have hpre : (p :: ps).isPrefixOf (p :: (ps ++ b)) = true := by
        rw [List.isPrefixOf_iff_prefix]
        have h := List.prefix_append (p :: ps) b
        simp only [List.cons_append] at h
        exact h
      simp only [List.nil_append, List.cons_append]
      simp only [replaceFirst, hpre, if_pos]
      show (p :: (ps ++ b)).drop (ps.length + 1) = b
      rw [List.drop_succ_cons]
      exact List.drop_left ps b
  | cons x a2 ih =>
    intro b hocc
    have h0 : pat.isPrefixOf (x :: (a2 ++ pat ++ b)) = false := by
      have h := hocc 0 (by simp)
      simpa [List.cons_append] using h
    have hshift : ∀ i, i < a2.length → pat.isPrefixOf ((a2 ++ pat ++ b).drop i) = false := by
      intro i hi
      have h := hocc (i + 1) (by simpa using Nat.succ_lt_succ hi)
      simpa [List.cons_append, List.drop_succ_cons] using h
    have hstep : replaceFirst pat ((x :: a2) ++ pat ++ b) =
        x :: replaceFirst pat (a2 ++ pat ++ b) := by
      simp only [List.cons_append, List.append_assoc] at h0 ⊢
      simp [replaceFirst, h0]
    rw [hstep, ih b hshift]
    simp [List.cons_append]

/-- Claim C5 counterexample: the raw key `"s:x-paasta-y"` has a namespace that
does not start with `"paasta-"`, yet the resulting mapping key is `"x-y"`,
not the unchanged namespace: the code removes the first occurrence of
`"paasta-"` anywhere, not only a prefix. -/
theorem claim_C5_cex :
    get_actual_deployments [("s:x-paasta-y", "img-v1")] "s" =
      some ([("x-y", "v1")], false)
    ∧ "paasta-".data.isPrefixOf "x-paasta-y".data = false
    ∧ ("x-y" : String) ≠ "x-paasta-y" := by
  refine ⟨by decide, by decide, by decide⟩

/-- Claim C5 as amended: the resulting mapping key is the namespace with the
FIRST OCCURRENCE of the literal substring `"paasta-"` removed, wherever it
occurs (a namespace without `"paasta-"` is kept unchanged); in particular the
key `"myservice:paasta-main"` with image `"services-myservice-a1b2c3d4"`
yields the mapping `{"main": "a1b2c3d4"}`. -/
theorem claim_C5 :
    (∀ s : String, containsSub "paasta-".data s.data = false → stripPaasta s = s)
    ∧ (∀ a b : List Char,
        (∀ i, i < a.length →
          "paasta-".data.isPrefixOf ((a ++ "paasta-".data ++ b).drop i) = false) →
        stripPaasta ⟨a ++ "paasta-".data ++ b⟩ = ⟨a ++ b⟩)
    ∧ get_actual_deployments [("myservice:paasta-main", "services-myservice-a1b2c3d4")]
        "myservice" = some ([("main", "a1b2c3d4")], false) := by
  refine ⟨?_, ?_, by decide⟩
  · intro s h
    unfold stripPaasta
    rw [replaceFirst_of_not_contains _ _ h]
  · intro a b h
    unfold stripPaasta
    exact congrArg String.mk
      (replaceFirst_first_occurrence "paasta-".data (by decide) a b h)

/-- Witness for the amended claim C5: a namespace without the substring is
kept unchanged, and a namespace with an inner occurrence at a checked first
position has it removed. -/
theorem claim_C5_witness :
    (containsSub "paasta-".data "main".data = false ∧ stripPaasta "main" = "main")
    ∧ ((∀ i, i < ("x-".data : List Char).length →
        "paasta-".data.isPrefixOf (("x-".data ++ "paasta-".data ++ "y".data).drop i) = false)
      ∧ stripPaasta ⟨"x-".data ++ "paasta-".data ++ "y".data⟩ = ⟨"x-".data ++ "y".data⟩) :=
  ⟨⟨by decide, claim_C5.1 "main" (by decide)⟩,
    ⟨by decide, claim_C5.2.1 "x-".data "y".data (by decide)⟩⟩

/-- Claim C7: with an empty raw deployments record, reading succeeds with an
empty mapping and the undeployed warning; and whenever the actual-deployment
mapping comes out empty, `paasta_status` produces only the single
missing-deployments outcome, with no per-cluster output and without touching
the pipeline. -/
theorem claim_C7 (rawPipeline nonDeploy : List String) (filt : Option (List String))
    (service : String) (probe : RemoteProbe) :
    get_actual_deployments ([] : List (String × String)) service = some ([], true)
    ∧ paasta_status [] rawPipeline nonDeploy filt service probe =
        some StatusOutcome.missingDeployments
    ∧ ∀ (record : List (String × String)) (w : Bool),
        get_actual_deployments record service = some ([], w) →
        paasta_status record rawPipeline nonDeploy filt service probe =
          some StatusOutcome.missingDeployments := by
  refine ⟨rfl, rfl, ?_⟩
  intro record w hr
  unfold paasta_status
  rw [hr]
  rfl

/-- Witness for claim C7: a record holding only another service's entry reads
to an empty mapping, and the report short-circuits to the
missing-deployments outcome. -/
theorem claim_C7_witness :
    get_actual_deployments [("other:ns", "img-a")] "svc" = some ([], false) ∧
    paasta_status [("other:ns", "img-a")] ["c.i"] [] none "svc" (fun _ _ => "") =
      some StatusOutcome.missingDeployments :=
  ⟨by decide,
    (claim_C7 ["c.i"] [] none "svc" (fun _ _ => "")).2.2 [("other:ns", "img-a")] false
      (by decide)⟩

theorem foldl_bogus (deployed : List String) :
    ∀ (l acc : List String),
      l.foldl (fun acc c => if c ∈ deployed then acc else acc ++ [c]) acc =
        acc ++ l.filter (fun c => decide (c ∉ deployed)) := by
  intro l
  induction l with
  | nil => intro acc; simp
  | cons c l ih =>
    intro acc
    rw [List.foldl_cons, List.filter_cons]
    by_cases hc : c ∈ deployed
    · rw [if_pos hc, if_neg (by simp [hc]), ih]
    · rw [if_neg hc, if_pos (by simp [hc]), ih]
      simp

/-- Claim C9: the bogus-filter list is exactly the filter entries absent from
the deployed-cluster list, in the filter's order; the warning output is empty
when the filter is absent or when every filter entry is deployed. -/
theorem claim_C9 (f deployed : List String) :
    bogus_clusters f deployed = f.filter (fun c => decide (c ∉ deployed))
    ∧ report_bogus_filters none deployed = ""
    ∧ ((∀ c ∈ f, c ∈ deployed) → report_bogus_filters (some f) deployed = "") := by
  have hb : bogus_clusters f deployed = f.filter (fun c => decide (c ∉ deployed)) := by
    unfold bogus_clusters
    rw [foldl_bogus]
    simp
  refine ⟨hb, rfl, ?_⟩
  intro hall
  have hnil : bogus_clusters f deployed = [] := by
    rw [hb, List.filter_eq_nil_iff]
    intro a ha
    simp [hall a ha]
  show (if (bogus_clusters f deployed).length > 0 then
      bogusWarning (bogus_clusters f deployed) else "") = ""
  rw [hnil]
  simp

/-- Witness for claim C9 at a filter fully contained in the deployed list. -/
theorem claim_C9_witness :
    (∀ c ∈ (["a"] : List String), c ∈ (["a", "b"] : List String)) ∧
    report_bogus_filters (some ["a"]) ["a", "b"] = "" :=
  ⟨by decide, (claim_C9 ["a"] ["a", "b"]).2.2 (by decide)⟩

theorem exists_cons_wf (ns : String) (rest : List String) (hok : ns.data.count '.' = 1) :
    (∃ t, t ∈ rest ∧ t.data.count '.' ≠ 1) ↔
      (∃ t, t ∈ ns :: rest ∧ t.data.count '.' ≠ 1) := by
  constructor
  · rintro ⟨t, ht, h3⟩
    exact ⟨t, List.mem_cons_of_mem _ ht, h3⟩
  · rintro ⟨t, ht, h3⟩
    rcases List.mem_cons.mp ht with rfl | ht2
    · exact absurd hok h3
    · exact ⟨t, ht2, h3⟩

theorem ldc_aux_none_iff (actual : List (String × String)) :
    ∀ (pipeline acc : List String),
      list_deployed_clusters_aux actual pipeline acc = none ↔
        ∃ t, t ∈ pipeline ∧ t.data.count '.' ≠ 1 := by
  intro pipeline
  induction pipeline with
  | nil => intro acc; simp [list_deployed_clusters_aux]
  | cons ns rest ih =>
    intro acc
    cases hs : splitTwo '.' ns with
    | none =>
      have hbad : ns.data.count '.' ≠ 1 := (splitTwo_eq_none_iff '.' ns).mp hs
      have hnone : list_deployed_clusters_aux actual (ns :: rest) acc = none := by
        simp only [list_deployed_clusters_aux, hs]
      rw [hnone]
      exact ⟨fun _ => ⟨ns, by simp, hbad⟩, fun _ => rfl⟩
    | some ci =>
      obtain ⟨a, b⟩ := ci
      have hok : ns.data.count '.' = 1 := by
        by_contra hne
        have h2 := (splitTwo_eq_none_iff '.' ns).mpr hne
        rw [h2] at hs
        cases hs
      rw [ldc_aux_cons actual ns rest acc a b hs]
      by_cases hm : dictContains actual ns = true
      · rw [if_pos hm]
        by_cases hacc : a ∈ acc
        · rw [if_pos hacc, ih acc]
          exact exists_cons_wf ns rest hok
        · rw [if_neg hacc, ih (acc ++ [a])]
          exact exists_cons_wf ns rest hok
      · rw [if_neg hm, ih acc]
        exact exists_cons_wf ns rest hok

theorem report_aux_none_iff (cluster : String) (actual : List (String × String))
    (probe : RemoteProbe) :
    ∀ pipeline : List String,
      report_status_for_cluster_aux cluster actual probe pipeline = none ↔
        ∃ t, t ∈ pipeline ∧ t.data.count '.' ≠ 1 := by
  intro pipeline
  induction pipeline with
  | nil => simp [report_status_for_cluster_aux]
  | cons ns rest ih =>
    cases hs : splitTwo '.' ns with
    | none =>
      have hbad : ns.data.count '.' ≠ 1 := (splitTwo_eq_none_iff '.' ns).mp hs
      rw [report_aux_cons_bad cluster actual probe ns rest hs]
      exact ⟨fun _ => ⟨ns, by simp, hbad⟩, fun _ => rfl⟩
    | some ci =>
      obtain ⟨a, b⟩ := ci
      have hok : ns.data.count '.' = 1 := by
        by_contra hne
        have h2 := (splitTwo_eq_none_iff '.' ns).mpr hne
        rw [h2] at hs
        cases hs
      by_cases hc : a = cluster
      · have hnex_of : ∀ ls, report_status_for_cluster_aux cluster actual probe rest = some ls →
            ¬ ∃ t, t ∈ rest ∧ t.data.count '.' ≠ 1 := by
          intro ls hls hex
          rw [← ih] at hex
          rw [hls] at hex
          cases hex
        cases hl : dictLookup actual ns with
        | some v =>
          cases hrest : report_status_for_cluster_aux cluster actual probe rest with
          | none =>
            have hcons : report_status_for_cluster_aux cluster actual probe (ns :: rest) = none := by
              simp only [report_status_for_cluster_aux, hs, hl, hrest,
                if_neg (show ¬a ≠ cluster from fun hn => hn hc)]
            rw [hcons]
            have hex := (exists_cons_wf ns rest hok).mp (ih.mp hrest)
            exact ⟨fun _ => hex, fun _ => rfl⟩
          | some ls =>
            rw [report_aux_cons_deployed cluster actual probe ns rest a b v ls hs hc hl hrest]
            exact ⟨fun hcontra => Option.noConfusion hcontra,
              fun hex => absurd ((exists_cons_wf ns rest hok).mpr hex) (hnex_of ls hrest)⟩
        | none =>
          cases hrest : report_status_for_cluster_aux cluster actual probe rest with
          | none =>
            have hcons : report_status_for_cluster_aux cluster actual probe (ns :: rest) = none := by
              simp only [report_status_for_cluster_aux, hs, hl, hrest,
                if_neg (show ¬a ≠ cluster from fun hn => hn hc)]
            rw [hcons]
            have hex := (exists_cons_wf ns rest hok).mp (ih.mp hrest)
            exact ⟨fun _ => hex, fun _ => rfl⟩
          | some ls =>
            rw [report_aux_cons_notdeployed cluster actual probe ns rest a b ls hs hc hl hrest]
            exact ⟨fun hcontra => Option.noConfusion hcontra,
              fun hex => absurd ((exists_cons_wf ns rest hok).mpr hex) (hnex_of ls hrest)⟩
      · rw [report_aux_cons_skip cluster actual probe ns rest a b hs hc, ih]
        exact exists_cons_wf ns rest hok

theorem reportClusters_isSome (pipeline : List String) (actual : List (String × String))
    (probe : RemoteProbe) (hno : ¬ ∃ t, t ∈ pipeline ∧ t.data.count '.' ≠ 1) :
    ∀ cs : List String, ∃ rs, reportClusters pipeline actual probe cs = some rs := by
  intro cs
  induction cs with
  | nil => exact ⟨[], rfl⟩
  | cons c rest ih =>
    obtain ⟨rs, hrs⟩ := ih
    cases hcc : report_status_for_cluster c pipeline actual probe with
    | none =>
      exact absurd ((report_aux_none_iff c actual probe pipeline).mp hcc) hno
    | some lines =>
      refine ⟨(c, lines) :: rs, ?_⟩
      simp only [reportClusters, hcc, hrs]

/-- Claim C10: `list_deployed_clusters` and the per-cluster report split every
target before testing membership, so each fails exactly when some target of
the sequence lacks exactly one `.` — including targets absent from the actual
mapping and targets of other clusters — and the whole `report_status` fails
with them. -/
theorem claim_C10 (pipeline : List String) (actual : List (String × String))
    (cluster : String) (filt : Option (List String)) (probe : RemoteProbe) :
    (list_deployed_clusters pipeline actual = none ↔
      ∃ t, t ∈ pipeline ∧ t.data.count '.' ≠ 1)
    ∧ (report_status_for_cluster cluster pipeline actual probe = none ↔
      ∃ t, t ∈ pipeline ∧ t.data.count '.' ≠ 1)
    ∧ (report_status pipeline actual filt probe = none ↔
      ∃ t, t ∈ pipeline ∧ t.data.count '.' ≠ 1) := by
  refine ⟨ldc_aux_none_iff actual pipeline [],
    report_aux_none_iff cluster actual probe pipeline, ?_⟩
  by_cases hex : ∃ t, t ∈ pipeline ∧ t.data.count '.' ≠ 1
  · have hldc : list_deployed_clusters pipeline actual = none :=
      (ldc_aux_none_iff actual pipeline []).mpr hex
    have hnone : report_status pipeline actual filt probe = none := by
      unfold report_status
      rw [hldc]
    exact ⟨fun _ => hex, fun _ => hnone⟩
  · cases hldc : list_deployed_clusters pipeline actual with
    | none => exact absurd ((ldc_aux_none_iff actual pipeline []).mp hldc) hex
    | some dcs =>
      obtain ⟨rs, hrs⟩ := reportClusters_isSome pipeline actual probe hex
        (selectedClusters filt dcs)
      have hsome : report_status pipeline actual filt probe =
          some (rs, report_bogus_filters filt dcs) := by
        simp only [report_status, hldc, hrs]
      rw [hsome]
      exact ⟨fun hc => Option.noConfusion hc, fun h => absurd h hex⟩

/-- Witness for claim C8 at a pipeline holding one well-formed deploy step
and one dotless deploy step. -/
theorem claim_C8_witness :
    (get_planned_deployments ["a.b", "bad"] [] = none ↔
      ∃ ns, ns ∈ (["a.b", "bad"] : List String) ∧ ns ∉ ([] : List String) ∧
        ns.data.count '.' ≠ 1) :=
  claim_C8 ["a.b", "bad"] []

/-- Witness for claim C10 at a sequence holding a deployed well-formed target
and a dotless target absent from the actual mapping. -/
theorem claim_C10_witness :
    (list_deployed_clusters ["c.i", "noDot"] [("c.i", "v")] = none ↔
      ∃ t, t ∈ (["c.i", "noDot"] : List String) ∧ t.data.count '.' ≠ 1)
    ∧ (report_status_for_cluster "c" ["c.i", "noDot"] [("c.i", "v")] (fun _ _ => "up") = none ↔
      ∃ t, t ∈ (["c.i", "noDot"] : List String) ∧ t.data.count '.' ≠ 1)
    ∧ (report_status ["c.i", "noDot"] [("c.i", "v")] none (fun _ _ => "up") = none ↔
      ∃ t, t ∈ (["c.i", "noDot"] : List String) ∧ t.data.count '.' ≠ 1) :=
  claim_C10 ["c.i", "noDot"] [("c.i", "v")] "c" none (fun _ _ => "up")
